import Mathlib

/-!
Shallow embedding of the action-scheduling and dependency-resolution core of
the cleep `update` module (`src/backend/update.py`), together with theorems
settling the specification claims about it.

Python dicts keyed by module name are embedded as association lists
`List (String × α)` (first match wins, like dict lookup; insertion replaces
the existing binding).  Python exceptions are embedded as `Except` / error
components.  The recursion of `_get_module_dependencies` is driven by an
explicit fuel parameter; exhausting the fuel is a distinguished error value,
so a run that produces a non-fuel result is exactly a terminating Python run.
-/

/-- Association-list lookup, mirroring Python `dict[key]` access order
(first binding wins). -/
def lookupE {α : Type} : List (String × α) → String → Option α
  | [], _ => none
  | (k, v) :: rest, key => if k = key then some v else lookupE rest key

/-- Association-list insertion, mirroring Python `dict[key] = value`
(replaces the existing binding, otherwise appends). -/
def setEntry {α : Type} : List (String × α) → String → α → List (String × α)
  | [], key, v => [(key, v)]
  | (k, w) :: rest, key, v =>
    if k = key then (key, v) :: rest else (k, w) :: setEntry rest key v

/-- Module metadata as consumed by the updater: version, dependency list and
the list of modules that load (depend on) it.  Mirrors the `ModuleInfos`
shape used by `update.py` (`version`, `deps`, `loadedby`). -/
structure ModuleInfos where
  version : List Nat
  deps : List String
  loadedby : List String
deriving DecidableEq

/-- A metadata source (`_get_module_infos_from_modules_json` or
`_get_module_infos_from_inventory`): `none` models the Python callback
raising. -/
def Lookup : Type := String → Option ModuleInfos

/-- Strict version order on dotted version tuples. -/
def versionLt : List Nat → List Nat → Bool
  | [], [] => false
  | [], _ :: _ => true
  | _ :: _, [] => false
  | a :: as, b :: bs => if a < b then true else if b < a then false else versionLt as bs

/-- Modelled from the spec: `Tools.compare_versions` from the cleep library is
not part of this repository; the spec describes it as "a simple ordered-tuple
comparison" returning whether the second version is strictly newer than the
first (installed) one. -/
def compare_versions (installed latest : List Nat) : Bool :=
  versionLt installed latest

/-- Outcomes of `_get_module_dependencies` other than a normal return:
`fuelOut` is the artificial fuel bound of the embedding, `unboundInfos` is the
Python `UnboundLocalError` raised when the function reaches a module already
present in `modules_infos` (the local `infos` is then never assigned),
`lookupFailure` is the info callback raising. -/
inductive ResolveError where
  | fuelOut
  | unboundInfos
  | lookupFailure
deriving DecidableEq

/-- The mutable state threaded through `_get_module_dependencies`: the
caller-supplied `modules_infos` dict and the recursion `context` with its
`dependencies` accumulator and `visited` list. -/
structure RState where
  infos : List (String × ModuleInfos)
  visited : List String
  deps : List String
deriving DecidableEq

mutual

/-- One recursive call of `_get_module_dependencies` (`update.py` lines
784-807): a module already in `visited` is skipped, otherwise the main body
runs. -/
def resolveOne (lookup : Lookup) : Nat → String → RState → Except ResolveError RState
  | 0, _, _ => .error .fuelOut
  | Nat.succ fuel, name, st =>
    if name ∈ st.visited then .ok st
    else resolveCore lookup fuel name st

/-- The body of `_get_module_dependencies` after the `visited` check: look the
module up (only when absent from `modules_infos`; when present the local
`infos` is unbound and Python raises), recurse into its dependencies, then
append the module to `dependencies`. -/
def resolveCore (lookup : Lookup) : Nat → String → RState → Except ResolveError RState
  | 0, _, _ => .error .fuelOut
  | Nat.succ fuel, name, st =>
    match lookupE st.infos name with
    | some _ => .error .unboundInfos
    | none =>
      match lookup name with
      | none => .error .lookupFailure
      | some inf =>
        match resolveDeps lookup fuel name inf.deps { st with infos := st.infos ++ [(name, inf)] } with
        | .error e => .error e
        | .ok st2 => .ok { st2 with deps := st2.deps ++ [name] }

/-- The `for dependency_name in infos['deps']` loop: a dependency equal to the
module itself is skipped, the others are resolved recursively in order. -/
def resolveDeps (lookup : Lookup) : Nat → String → List String → RState → Except ResolveError RState
  | 0, _, _, _ => .error .fuelOut
  | Nat.succ _, _, [], st => .ok st
  | Nat.succ fuel, parent, d :: rest, st =>
    if d = parent then resolveDeps lookup fuel parent rest st
    else
      match resolveOne lookup fuel d st with
      | .error e => .error e
      | .ok st1 => resolveDeps lookup fuel parent rest st1

end

/-- Embeds `_get_module_dependencies(module_name, modules_infos, callback)` called
from the outside (`context is None`): the context is created with `visited`
seeded with the starting module and the body runs without the visited check.
Returns the `dependencies` list together with the filled `modules_infos`. -/
def get_module_dependencies (lookup : Lookup) (fuel : Nat) (name : String)
    (modulesInfos : List (String × ModuleInfos)) :
    Except ResolveError (List String × List (String × ModuleInfos)) :=
  match resolveCore lookup fuel name { infos := modulesInfos, visited := [name], deps := [] } with
  | .error e => .error e
  | .ok st => .ok (st.deps, st.infos)

/-- The three `ACTION_MODULE_*` constants of `update.py`. -/
inductive ActionKind where
  | install
  | update
  | uninstall
deriving DecidableEq

/-- One entry of `self.__main_actions`: the action kind, the target module,
the optional extra payload (for uninstall a `{'force': bool}` dict, embedded
as `some force`) and the `processing` flag. -/
structure MainAction where
  action : ActionKind
  module : String
  extra : Option Bool
  processing : Bool
deriving DecidableEq

/-- Embeds `_postpone_main_action` (`update.py` lines 639-671): if an action with
the same kind and module is already queued, return `False` and leave the
queue alone; otherwise insert the new entry at index 0 and return `True`.
The result pairs the returned boolean with the new queue. -/
def postpone_main_action (actions : List MainAction) (action : ActionKind)
    (module_name : String) (extra : Option Bool) : Bool × List MainAction :=
  let existing_actions :=
    actions.filter (fun a => decide (a.module = module_name) && decide (a.action = action))
  if existing_actions.length = 0 then
    (true, { action := action, module := module_name, extra := extra, processing := false } :: actions)
  else
    (false, actions)

/-- The validation errors raised synchronously by the public operations. -/
inductive UpdateError where
  | missingParameter
  | invalidParameter
deriving DecidableEq

/-- Embeds `install_module` (`update.py` lines 920-938).  `module_name = none`
models the Python `None` argument.  A raised exception is returned as the
`.error` first component; the second component is the main-action queue after
the call (unchanged when an exception is raised). -/
def install_module (installed : List String) (actions : List MainAction)
    (module_name : Option String) : Except UpdateError Bool × List MainAction :=
  match module_name with
  | none => (.error .missingParameter, actions)
  | some name =>
    if name.length = 0 then (.error .missingParameter, actions)
    else if name ∈ installed then (.error .invalidParameter, actions)
    else
      let r := postpone_main_action actions .install name none
      (.ok r.1, r.2)

/-- Embeds `uninstall_module` (`update.py` lines 1015-1035): postpones an uninstall
carrying `extra = {'force': force}`. -/
def uninstall_module (installed : List String) (actions : List MainAction)
    (module_name : Option String) (force : Bool) : Except UpdateError Bool × List MainAction :=
  match module_name with
  | none => (.error .missingParameter, actions)
  | some name =>
    if name.length = 0 then (.error .missingParameter, actions)
    else if name ∈ installed then
      let r := postpone_main_action actions .uninstall name (some force)
      (.ok r.1, r.2)
    else (.error .invalidParameter, actions)

/-- Embeds `update_module` (`update.py` lines 1184-1205). -/
def update_module (installed : List String) (actions : List MainAction)
    (module_name : Option String) : Except UpdateError Bool × List MainAction :=
  match module_name with
  | none => (.error .missingParameter, actions)
  | some name =>
    if name.length = 0 then (.error .missingParameter, actions)
    else if name ∈ installed then
      let r := postpone_main_action actions .update name none
      (.ok r.1, r.2)
    else (.error .invalidParameter, actions)

/-- One entry of `self.__sub_actions` (`_postpone_sub_action` field layout). -/
structure SubAction where
  action : ActionKind
  module : String
  main : String
  infos : ModuleInfos
  extra : Option Bool
  progressstep : Option Nat
deriving DecidableEq

/-- Embeds `_postpone_sub_action` (`update.py` lines 673-691): inserts at index 0
with `progressstep` still unset (`None`). -/
def postpone_sub_action (subActions : List SubAction) (action : ActionKind)
    (module_name : String) (module_infos : ModuleInfos) (main_module_name : String)
    (extra : Option Bool) : List SubAction :=
  { action := action, module := module_name, main := main_module_name,
    infos := module_infos, extra := extra, progressstep := none } :: subActions

/-- Embeds `_get_modules_to_uninstall` (`update.py` lines 1037-1069): starting from a
copy of the candidate list, drop (first occurrence, like `list.remove`) every
candidate one of whose `loadedby` modules is outside the candidate list; a
candidate with no infos is given the synthetic loader list `['orphan']`. -/
def get_modules_to_uninstall (modules_to_uninstall : List String)
    (modules_infos : List (String × ModuleInfos)) : List String :=
  modules_to_uninstall.foldl
    (fun out module_to_uninstall =>
      let loadedby :=
        match lookupE modules_infos module_to_uninstall with
        | none => ["orphan"]
        | some inf => inf.loadedby
      if loadedby.any (fun lb => decide (¬ lb ∈ modules_to_uninstall)) then
        out.erase module_to_uninstall
      else out)
    modules_to_uninstall

/-- The `update` sub-dict of a `_modules_updates` entry. -/
structure UpdateInfo where
  progress : Int
  failed : Bool
  version : Option (List Nat)
  changelog : Option String
deriving DecidableEq

/-- One `_modules_updates` entry (`__get_module_update_data` shape). -/
structure ModuleUpdate where
  updatable : Bool
  processing : Bool
  name : String
  version : Option (List Nat)
  update : UpdateInfo
deriving DecidableEq

/-- Embeds `__get_module_update_data` (`update.py` lines 343-381). -/
def get_module_update_data (module_name : String) (installed_module_version : Option (List Nat))
    (new_module_version : Option (List Nat)) : ModuleUpdate :=
  { updatable := false, processing := false, name := module_name,
    version := installed_module_version,
    update := { progress := 0, failed := false, version := new_module_version, changelog := none } }

/-- Embeds `_get_processing_module_name` (`update.py` lines 250-261): the module of
the last queue entry when it is marked processing. -/
def get_processing_module_name (actions : List MainAction) : Option String :=
  match actions.getLast? with
  | none => none
  | some a => if a.processing then some a.module else none

/-- Embeds `_set_module_process` (`update.py` lines 263-294).  `jsonL` stands for
`_get_module_infos_from_modules_json`; a missing entry yields the default new
version `'0.0.0'`.  Progress is set (or incremented), clamped above at 100,
and any non-`None` `failed` argument both stores the flag and forces progress
to 100. -/
def set_module_process (jsonL : Lookup) (actions : List MainAction)
    (updates : List (String × ModuleUpdate)) (progress incProgress : Option Int)
    (failed : Option Bool) : List (String × ModuleUpdate) :=
  match get_processing_module_name actions with
  | none => updates
  | some module_name =>
    let mu0 :=
      match lookupE updates module_name with
      | some mu => mu
      | none =>
        let new_module_version :=
          match jsonL module_name with
          | some inf => some inf.version
          | none => some [0, 0, 0]
        get_module_update_data module_name none new_module_version
    let p1 : Int :=
      match progress with
      | some p => p
      | none =>
        match incProgress with
        | some i => mu0.update.progress + i
        | none => mu0.update.progress
    let p2 : Int := if 100 < p1 then 100 else p1
    let u2 :=
      match failed with
      | some f => { mu0.update with failed := f, progress := 100 }
      | none => { mu0.update with progress := p2 }
    setEntry updates module_name { mu0 with processing := true, update := u2 }

/-- Embeds `_is_module_process_failed` (`update.py` lines 296-308): `some true` when
no module is processing, otherwise the processing module's `failed` flag;
`none` models the `KeyError` when the processing module has no
`_modules_updates` entry. -/
def is_module_process_failed (actions : List MainAction)
    (updates : List (String × ModuleUpdate)) : Option Bool :=
  match get_processing_module_name actions with
  | none => some true
  | some module_name => (lookupE updates module_name).map (fun mu => mu.update.failed)

/-- The scheduler-owned mutable state: the two queues, the `_modules_updates`
map, the single-flight `__processor` slot (holding the sub-action it was
started for) and the `_need_restart` flag. -/
structure SchedState where
  mainActions : List MainAction
  subActions : List SubAction
  updates : List (String × ModuleUpdate)
  processor : Option SubAction
  needRestart : Bool
deriving DecidableEq

/-- Failures of a sub-action tick: popping an empty list (`IndexError`) or the
`KeyError` of `_is_module_process_failed`. -/
inductive TickError where
  | popEmpty
  | keyError
deriving DecidableEq

/-- Embeds `_execute_sub_actions_task` (`update.py` lines 219-248): defer while the
processor slot is occupied; pop the oldest sub-action (list tail, since
insertion is at index 0); if the current module process failed, stop without
dispatching; otherwise increment progress by the sub-action's step and
dispatch it (embedded as filling the processor slot).  The second component
reports the dispatched sub-action, `none` when nothing was dispatched. -/
def execute_sub_actions_task (jsonL : Lookup) (st : SchedState) :
    Except TickError (SchedState × Option SubAction) :=
  match st.processor with
  | some _ => .ok (st, none)
  | none =>
    match st.subActions.getLast? with
    | none => .error .popEmpty
    | some sub =>
      let st1 := { st with subActions := st.subActions.dropLast }
      match is_module_process_failed st1.mainActions st1.updates with
      | none => .error .keyError
      | some true => .ok (st1, none)
      | some false =>
        let updates2 :=
          set_module_process jsonL st1.mainActions st1.updates none
            (sub.progressstep.map (fun n => (n : Int))) none
        .ok ({ st1 with updates := updates2, processor := some sub }, some sub)

/-- The status dict handed to the processor callbacks. -/
structure ProcessStatus where
  status : Nat
  module : String
deriving DecidableEq

/-- Modelled from the spec: the numeric status codes of the external `Install`
processor live in the cleep library, outside this repository.  The spec fixes
their ordering only: the code distinguishes in-progress, done and error
states, and any code at or above done is terminal. -/
def STATUS_PROCESSING : Nat := 1

/-- Modelled from the spec: terminal success code of the external processor. -/
def STATUS_DONE : Nat := 2

/-- Modelled from the spec: terminal error code of the external processor
(above `STATUS_DONE`, so it is also terminal). -/
def STATUS_ERROR : Nat := 3

/-- Embeds `__install_module_callback` (`update.py` lines 832-869), restricted to its
effects on the embedded state (event emission, status persistence and the
`cleep.conf` edit act on external collaborators): on done set `_need_restart`;
on error mark the processing module failed; on any terminal status release
the processor slot. -/
def install_module_callback (jsonL : Lookup) (st : SchedState) (status : ProcessStatus) :
    SchedState :=
  let st1 :=
    if status.status = STATUS_DONE then { st with needRestart := true }
    else if status.status = STATUS_ERROR then
      { st with updates := set_module_process jsonL st.mainActions st.updates none none (some true) }
    else st
  if STATUS_DONE ≤ status.status then { st1 with processor := none } else st1

/-- Embeds `__uninstall_module_callback` (`update.py` lines 940-976); its effects on
the embedded state coincide with the install callback's. -/
def uninstall_module_callback (jsonL : Lookup) (st : SchedState) (status : ProcessStatus) :
    SchedState :=
  let st1 :=
    if status.status = STATUS_DONE then { st with needRestart := true }
    else if status.status = STATUS_ERROR then
      { st with updates := set_module_process jsonL st.mainActions st.updates none none (some true) }
    else st
  if STATUS_DONE ≤ status.status then { st1 with processor := none } else st1

/-- Embeds `__update_module_callback` (`update.py` lines 1071-1107); its effects on
the embedded state coincide with the install callback's. -/
def update_module_callback (jsonL : Lookup) (st : SchedState) (status : ProcessStatus) :
    SchedState :=
  let st1 :=
    if status.status = STATUS_DONE then { st with needRestart := true }
    else if status.status = STATUS_ERROR then
      { st with updates := set_module_process jsonL st.mainActions st.updates none none (some true) }
    else st
  if STATUS_DONE ≤ status.status then { st1 with processor := none } else st1

/-- Failures during batch planning (caught at the main-tick boundary):
a failed dependency resolution, a raising inventory lookup, or a `KeyError`
on one of the infos dicts. -/
inductive PlanError where
  | resolveError (e : ResolveError)
  | inventoryError
  | keyError
deriving DecidableEq

/-- The `for dependency_name in dependencies` loop of `_install_main_module`
(`update.py` lines 899-918): a dependency not yet installed is postponed as an
install, an installed one whose catalog version is newer is postponed as an
update.  A raised exception keeps the sub-actions postponed so far. -/
def install_main_loop (invL : Lookup) (installed : List String) (main_name : String)
    (modules_infos_json : List (String × ModuleInfos)) :
    List String → List SubAction → List SubAction × Option PlanError
  | [], acc => (acc, none)
  | dependency_name :: rest, acc =>
    if dependency_name ∈ installed then
      match invL dependency_name with
      | none => (acc, some .inventoryError)
      | some infos_inventory =>
        match lookupE modules_infos_json dependency_name with
        | none => (acc, some .keyError)
        | some infos_json =>
          if compare_versions infos_inventory.version infos_json.version then
            install_main_loop invL installed main_name modules_infos_json rest
              (postpone_sub_action acc .update dependency_name infos_json main_name none)
          else
            install_main_loop invL installed main_name modules_infos_json rest acc
    else
      match lookupE modules_infos_json dependency_name with
      | none => (acc, some .keyError)
      | some infos_json =>
        install_main_loop invL installed main_name modules_infos_json rest
          (postpone_sub_action acc .install dependency_name infos_json main_name none)

/-- Embeds `_install_main_module` (`update.py` lines 883-918). -/
def install_main_module (jsonL invL : Lookup) (fuel : Nat) (installed : List String)
    (module_name : String) : List SubAction × Option PlanError :=
  match get_module_dependencies jsonL fuel module_name [] with
  | .error e => ([], some (.resolveError e))
  | .ok (dependencies, modules_infos_json) =>
    install_main_loop invL installed module_name modules_infos_json dependencies []

/-- A postponing loop over a list of module names, as run by
`_uninstall_main_module` and the three loops of `_update_main_module`: each
module's infos are read from the given dict (a missing entry is the Python
`KeyError`) and a sub-action of the given kind is postponed. -/
def postpone_for (kind : ActionKind) (modules_infos : List (String × ModuleInfos))
    (main_name : String) (extra : Option Bool) :
    List String → List SubAction → List SubAction × Option PlanError
  | [], acc => (acc, none)
  | m :: rest, acc =>
    match lookupE modules_infos m with
    | none => (acc, some PlanError.keyError)
    | some inf =>
      postpone_for kind modules_infos main_name extra rest
        (postpone_sub_action acc kind m inf main_name extra)

/-- Embeds `_uninstall_main_module` (`update.py` lines 990-1013): resolve the
dependencies against the inventory, prune them with
`_get_modules_to_uninstall`, and postpone an uninstall for each survivor,
forwarding `extra`. -/
def uninstall_main_module (invL : Lookup) (fuel : Nat) (module_name : String)
    (extra : Option Bool) : List SubAction × Option PlanError :=
  match get_module_dependencies invL fuel module_name [] with
  | .error e => ([], some (.resolveError e))
  | .ok (dependencies, modules_infos) =>
    postpone_for .uninstall modules_infos module_name extra
      (get_modules_to_uninstall dependencies modules_infos) []

/-- The `dependencies_to_update` comprehension of `_update_main_module`
(`update.py` lines 1149-1153): modules of the new graph also present in the
old graph whose catalog version is newer than the installed one. -/
def compute_dependencies_to_update (infosInv infosJson : List (String × ModuleInfos))
    (old_deps : List String) : List String → Except PlanError (List String)
  | [] => .ok []
  | m :: rest =>
    if m ∈ old_deps then
      match lookupE infosInv m, lookupE infosJson m with
      | some infI, some infJ =>
        match compute_dependencies_to_update infosInv infosJson old_deps rest with
        | .error e => .error e
        | .ok others =>
          .ok (if compare_versions infI.version infJ.version then m :: others else others)
      | _, _ => .error .keyError
    else compute_dependencies_to_update infosInv infosJson old_deps rest

/-- Embeds `_update_main_module` (`update.py` lines 1120-1182): resolve the old graph
(inventory) and the new graph (catalog), postpone uninstalls of old-only
modules (forced), then installs of new-only modules, then updates of common
modules with a newer catalog version. -/
def update_main_module (invL jsonL : Lookup) (fuel : Nat) (module_name : String) :
    List SubAction × Option PlanError :=
  match get_module_dependencies invL fuel module_name [] with
  | .error e => ([], some (.resolveError e))
  | .ok (old_dependencies, modules_infos_inventory) =>
    match get_module_dependencies jsonL fuel module_name [] with
    | .error e => ([], some (.resolveError e))
    | .ok (new_dependencies, modules_infos_json) =>
      let dependencies_to_uninstall :=
        old_dependencies.filter (fun m => decide (¬ m ∈ new_dependencies))
      let dependencies_to_install :=
        new_dependencies.filter (fun m => decide (¬ m ∈ old_dependencies))
      match compute_dependencies_to_update modules_infos_inventory modules_infos_json
          old_dependencies new_dependencies with
      | .error e => ([], some e)
      | .ok dependencies_to_update =>
        match postpone_for .uninstall modules_infos_inventory module_name (some true)
            dependencies_to_uninstall [] with
        | (acc, some e) => (acc, some e)
        | (acc1, none) =>
          match postpone_for .install modules_infos_json module_name none
              dependencies_to_install acc1 with
          | (acc, some e) => (acc, some e)
          | (acc2, none) =>
            postpone_for .update modules_infos_json module_name none
              dependencies_to_update acc2

/-- Dispatch of the popped main action to its planning routine
(`update.py` lines 184-189). -/
def plan_main_action (jsonL invL : Lookup) (fuel : Nat) (installed : List String)
    (a : MainAction) : List SubAction × Option PlanError :=
  match a.action with
  | .install => install_main_module jsonL invL fuel installed a.module
  | .uninstall => uninstall_main_module invL fuel a.module a.extra
  | .update => update_main_module invL jsonL fuel a.module

/-- Progress-step assignment (`update.py` lines 196-203): `int(100 / N)` with
the `ZeroDivisionError` handler giving 0, then stored into every sub-action.
Nat division conveniently gives `100 / 0 = 0`. -/
def assign_progress_steps (subActions : List SubAction) : List SubAction :=
  let progress_step := 100 / subActions.length
  subActions.map (fun s => { s with progressstep := some progress_step })

/-- Marking of the popped (last) entry as processing (`update.py` line 183). -/
def mark_last_processing (actions : List MainAction) : List MainAction :=
  match actions.getLast? with
  | none => actions
  | some a => actions.dropLast ++ [{ a with processing := true }]

/-- Embeds `_execute_main_action_task` (`update.py` lines 157-217): defer while the
sub-action queue is non-empty; drop the previous head entry if it was
processing; stop when the queue is empty; otherwise mark the head entry
processing, expand it via its planning routine, and — unless planning raised —
reset the module's progress to 0 and assign the progress steps.  A planning
exception is caught and leaves the partially filled sub-action queue and the
processing mark behind. -/
def execute_main_action_task (jsonL invL : Lookup) (fuel : Nat) (installed : List String)
    (st : SchedState) : SchedState :=
  if st.subActions.length ≠ 0 then st
  else
    let actions1 :=
      match st.mainActions.getLast? with
      | some a => if a.processing then st.mainActions.dropLast else st.mainActions
      | none => st.mainActions
    match actions1.getLast? with
    | none => { st with mainActions := actions1 }
    | some action =>
      let actions2 := mark_last_processing actions1
      let planned := plan_main_action jsonL invL fuel installed action
      let st2 := { st with mainActions := actions2, subActions := planned.1 }
      match planned.2 with
      | some _ => st2
      | none =>
        { st2 with
          updates := set_module_process jsonL st2.mainActions st2.updates (some 0) none none,
          subActions := assign_progress_steps st2.subActions }

/-- Iterated sub-action ticks, collecting every dispatched sub-action. -/
def drain_sub_actions (jsonL : Lookup) : Nat → SchedState →
    Except TickError (SchedState × List SubAction)
  | 0, st => .ok (st, [])
  | Nat.succ k, st =>
    match execute_sub_actions_task jsonL st with
    | .error e => .error e
    | .ok (st1, d) =>
      match drain_sub_actions jsonL k st1 with
      | .error e => .error e
      | .ok (st2, ds) => .ok (st2, d.toList ++ ds)

/-- Looking up the key just set returns the new value. -/
theorem lookupE_setEntry_self {α : Type} (l : List (String × α)) (k : String) (v : α) :
    lookupE (setEntry l k v) k = some v := by
  induction l with
  | nil => simp [setEntry, lookupE]
  | cons kv rest ih =>
    obtain ⟨k', w⟩ := kv
    by_cases h : k' = k
    · simp [setEntry, h, lookupE]
    · simp [setEntry, h, lookupE, ih]

/-- A binding found in the left part of an appended association list wins. -/
theorem lookupE_append_of_some {α : Type} {l1 : List (String × α)} {k : String} {v : α}
    (h : lookupE l1 k = some v) (l2 : List (String × α)) :
    lookupE (l1 ++ l2) k = some v := by
  induction l1 with
  | nil => simp [lookupE] at h
  | cons kv rest ih =>
    obtain ⟨k', w⟩ := kv
    by_cases hk : k' = k
    · simpa [lookupE, hk] using h
    · simp [lookupE, hk] at h ⊢
      exact ih h

/-- A key absent from the left part of an appended association list is looked
up in the right part. -/
theorem lookupE_append_of_none {α : Type} {l1 : List (String × α)} {k : String}
    (h : lookupE l1 k = none) (l2 : List (String × α)) :
    lookupE (l1 ++ l2) k = lookupE l2 k := by
  induction l1 with
  | nil => simp [lookupE]
  | cons kv rest ih =>
    obtain ⟨k', w⟩ := kv
    by_cases hk : k' = k
    · simp [lookupE, hk] at h
    · simp [lookupE, hk] at h ⊢
      exact ih h

/-- The identity key invariant of the main-action queue: no two queued entries
share the same `(kind, module)` pair. -/
def NoDupMainKeys (actions : List MainAction) : Prop :=
  actions.Pairwise (fun a b => ¬ (a.action = b.action ∧ a.module = b.module))

/-- A postponed action whose `(kind, module)` pair is already queued is
dropped: `False` is returned and the queue is untouched. -/
theorem postpone_main_action_of_exists {actions : List MainAction} {k : ActionKind}
    {m : String} (e : Option Bool) (h : ∃ a ∈ actions, a.action = k ∧ a.module = m) :
    postpone_main_action actions k m e = (false, actions) := by
  obtain ⟨a, ha, hak, ham⟩ := h
  have hmem : a ∈ actions.filter (fun a => decide (a.module = m) && decide (a.action = k)) :=
    List.mem_filter.2 ⟨ha, by simp [hak, ham]⟩
  have hne : (actions.filter (fun a => decide (a.module = m) && decide (a.action = k))).length ≠ 0 := by
    intro h0
    rw [List.length_eq_zero] at h0
    rw [h0] at hmem
    exact absurd hmem (List.not_mem_nil a)
  simp only [postpone_main_action]
  rw [if_neg hne]

/-- Postponing a main action preserves the identity-key invariant. -/
theorem postpone_main_action_nodup (actions : List MainAction) (k : ActionKind)
    (m : String) (e : Option Bool) (h : NoDupMainKeys actions) :
    NoDupMainKeys (postpone_main_action actions k m e).2 := by
  simp only [postpone_main_action]
  split
  · rename_i h0
    rw [List.length_eq_zero, List.filter_eq_nil_iff] at h0
    refine List.Pairwise.cons ?_ h
    intro b hb hcontra
    have := h0 b hb
    simp only [Bool.and_eq_true, decide_eq_true_eq] at this
    exact this ⟨hcontra.2.symm, hcontra.1.symm⟩
  · exact h

/-- Any sequence of submissions, starting from the empty queue, keeps the
identity-key invariant. -/
theorem postpone_main_action_foldl_nodup (subs : List (ActionKind × String × Option Bool)) :
    NoDupMainKeys (subs.foldl (fun acc s => (postpone_main_action acc s.1 s.2.1 s.2.2).2) []) := by
  have general : ∀ (l : List (ActionKind × String × Option Bool)) (acc : List MainAction),
      NoDupMainKeys acc →
      NoDupMainKeys (l.foldl (fun acc s => (postpone_main_action acc s.1 s.2.1 s.2.2).2) acc) := by
    intro l
    induction l with
    | nil => intro acc h; exact h
    | cons s rest ih =>
      intro acc h
      exact ih _ (postpone_main_action_nodup acc s.1 s.2.1 s.2.2 h)
  exact general subs [] List.Pairwise.nil

/-- Claim C2: submitting a `(kind, module)` pair already pending returns
`False` and leaves the main-action queue unchanged; `_postpone_main_action`
preserves the at-most-one-per-identity-key invariant, so any sequence of
submissions starting from the empty queue never queues two entries with the
same `(kind, module)` pair. -/
theorem claim_C2_main_action_dedup :
    (∀ (actions : List MainAction) (k : ActionKind) (m : String) (e : Option Bool),
        (∃ a ∈ actions, a.action = k ∧ a.module = m) →
        postpone_main_action actions k m e = (false, actions)) ∧
    (∀ (actions : List MainAction) (k : ActionKind) (m : String) (e : Option Bool),
        NoDupMainKeys actions → NoDupMainKeys (postpone_main_action actions k m e).2) ∧
    (∀ subs : List (ActionKind × String × Option Bool),
        NoDupMainKeys (subs.foldl (fun acc s => (postpone_main_action acc s.1 s.2.1 s.2.2).2) [])) :=
  ⟨fun _ _ _ e h => postpone_main_action_of_exists e h,
   postpone_main_action_nodup,
   postpone_main_action_foldl_nodup⟩

/-- Witness for claim C2 at a concrete queue holding a pending install of
module `a`. -/
theorem claim_C2_main_action_dedup_witness :
    postpone_main_action [{ action := .install, module := "a", extra := none, processing := false }]
      .install "a" none =
      (false, [{ action := .install, module := "a", extra := none, processing := false }]) :=
  claim_C2_main_action_dedup.1 _ _ _ _ (by decide)

/-- Claim C9: `install_module` rejects a missing/empty name with
`MissingParameter` and an already installed module with `InvalidParameter`;
`uninstall_module` and `update_module` reject a not-installed module with
`InvalidParameter`; each rejection is returned synchronously and the
main-action queue comes back exactly as it was (nothing queued). -/
theorem claim_C9_validation_errors :
    (∀ (installed : List String) (actions : List MainAction),
        install_module installed actions none = (.error .missingParameter, actions)) ∧
    (∀ (installed : List String) (actions : List MainAction),
        install_module installed actions (some "") = (.error .missingParameter, actions)) ∧
    (∀ (installed : List String) (actions : List MainAction) (m : String),
        m.length ≠ 0 → m ∈ installed →
        install_module installed actions (some m) = (.error .invalidParameter, actions)) ∧
    (∀ (installed : List String) (actions : List MainAction) (m : String) (force : Bool),
        m.length ≠ 0 → ¬ m ∈ installed →
        uninstall_module installed actions (some m) force = (.error .invalidParameter, actions)) ∧
    (∀ (installed : List String) (actions : List MainAction) (m : String),
        m.length ≠ 0 → ¬ m ∈ installed →
        update_module installed actions (some m) = (.error .invalidParameter, actions)) := by
  refine ⟨fun installed actions => rfl, fun installed actions => rfl, ?_, ?_, ?_⟩
  · intro installed actions m hlen hmem
    simp [install_module, hlen, hmem]
  · intro installed actions m force hlen hmem
    simp [uninstall_module, hlen, hmem]
  · intro installed actions m hlen hmem
    simp [update_module, hlen, hmem]

/-- Witness for claim C9 at concrete inputs: installed list `["a"]`, empty
queue. -/
theorem claim_C9_validation_errors_witness :
    install_module ["a"] [] none = (.error .missingParameter, []) ∧
    install_module ["a"] [] (some "") = (.error .missingParameter, []) ∧
    install_module ["a"] [] (some "a") = (.error .invalidParameter, []) ∧
    uninstall_module ["a"] [] (some "b") true = (.error .invalidParameter, []) ∧
    update_module ["a"] [] (some "b") = (.error .invalidParameter, []) :=
  ⟨claim_C9_validation_errors.1 _ _,
   claim_C9_validation_errors.2.1 _ _,
   claim_C9_validation_errors.2.2.1 _ _ _ (by decide) (by decide),
   claim_C9_validation_errors.2.2.2.1 _ _ _ _ (by decide) (by decide),
   claim_C9_validation_errors.2.2.2.2 _ _ _ (by decide) (by decide)⟩

/-- Claim C10: main-action deduplication ignores the extra payload — while an
uninstall of module `m` with any original extra payload `e` is pending,
submitting an uninstall of `m` with any `force` value returns `False` and the
queue (including the pending entry's payload) is returned unchanged. -/
theorem claim_C10_dedup_ignores_extra (installed : List String) (actions : List MainAction)
    (m : String) (e : Option Bool) (force : Bool) (h1 : m.length ≠ 0) (h2 : m ∈ installed)
    (h3 : ∃ a ∈ actions, a.action = .uninstall ∧ a.module = m ∧ a.extra = e) :
    uninstall_module installed actions (some m) force = (.ok false, actions) := by
  obtain ⟨a, ha, hak, ham, hae⟩ := h3
  have hp : postpone_main_action actions .uninstall m (some force) = (false, actions) :=
    postpone_main_action_of_exists _ ⟨a, ha, hak, ham⟩
  simp [uninstall_module, h1, h2, hp]

/-- Witness for claim C10: an uninstall of `m` with `force=False` is pending;
re-submitting with `force=True` is refused and the original entry survives. -/
theorem claim_C10_dedup_ignores_extra_witness :
    uninstall_module ["m"]
      [{ action := .uninstall, module := "m", extra := some false, processing := false }]
      (some "m") true =
      (.ok false, [{ action := .uninstall, module := "m", extra := some false, processing := false }]) :=
  claim_C10_dedup_ignores_extra ["m"] _ "m" (some false) true (by decide) (by decide) (by decide)

/-- The two-module cyclic dependency graph `a → b → a`. -/
def cycle_lookup_ab : Lookup := fun n =>
  if n = "a" then some ⟨[1], ["b"], []⟩
  else if n = "b" then some ⟨[1], ["a"], []⟩
  else none

/-- Claim C8: on the cyclic graph `a → b → a`, `_get_module_dependencies`
terminates (returns normally, instead of spending its fuel) and the result
contains each of the two modules exactly once, leaf-first. -/
theorem claim_C8_cycle_terminates :
    get_module_dependencies cycle_lookup_ab 10 "a" [] =
      .ok (["b", "a"], [("a", ⟨[1], ["b"], []⟩), ("b", ⟨[1], ["a"], []⟩)]) ∧
    ["b", "a"].count "a" = 1 ∧ ["b", "a"].count "b" = 1 :=
  ⟨rfl, by decide, by decide⟩

/-- Counting occurrences through the pruning fold of
`_get_modules_to_uninstall`: every processed occurrence of a candidate whose
infos are missing erases one occurrence from the accumulator (the synthetic
loader `'orphan'` is outside the candidate list), and no other step adds
one. -/
theorem count_foldl_erase (infos : List (String × ModuleInfos)) (candidates : List String)
    (cand : String) (h2 : lookupE infos cand = none) (h3 : ¬ "orphan" ∈ candidates) :
    ∀ (l out : List String),
      List.count cand (l.foldl
        (fun out module_to_uninstall =>
          if (match lookupE infos module_to_uninstall with
              | none => ["orphan"]
              | some inf => inf.loadedby).any (fun lb => decide (¬ lb ∈ candidates)) then
            out.erase module_to_uninstall
          else out) out)
      ≤ List.count cand out - List.count cand l := by
  intro l
  induction l with
  | nil => intro out; simp
  | cons x rest ih =>
    intro out
    rw [List.foldl_cons]
    by_cases hx : x = cand
    · subst hx
      have hstep :
          (if (match lookupE infos x with
              | none => ["orphan"]
              | some inf => inf.loadedby).any (fun lb => decide (¬ lb ∈ candidates)) then
            out.erase x
          else out) = out.erase x := by
        simp only [h2, List.any_cons, List.any_nil, Bool.or_false, decide_eq_true_eq]
        rw [if_pos]
        simpa using h3
      rw [hstep]
      refine le_trans (ih (out.erase x)) ?_
      rw [List.count_erase_self, List.count_cons_self]
      omega
    · have hcount :
          (if (match lookupE infos x with
              | none => ["orphan"]
              | some inf => inf.loadedby).any (fun lb => decide (¬ lb ∈ candidates)) then
            out.erase x
          else out).count cand = out.count cand := by
        split
        · exact List.count_erase_of_ne (fun h => hx h.symm) out
        · rfl
      refine le_trans (ih _) ?_
      rw [hcount, List.count_cons_of_ne (fun h => hx h.symm)]

/-- The candidate list and infos map exhibiting the `'orphan'` name clash: a
module literally named `orphan` is itself a candidate. -/
def orphan_clash_infos : List (String × ModuleInfos) := [("orphan", ⟨[1], [], []⟩)]

/-- Counterexample to claim C6 as stated: candidate `a` has no infos in the
map, yet because another candidate is literally named `orphan`, the synthetic
loader list `['orphan']` has no entry outside the candidate set, so `a` stays
in the uninstall result — it WILL be removed, contradicting the claim. -/
theorem claim_C6_counterexample :
    lookupE orphan_clash_infos "a" = none ∧
    get_modules_to_uninstall ["a", "orphan"] orphan_clash_infos = ["a", "orphan"] ∧
    "a" ∈ get_modules_to_uninstall ["a", "orphan"] orphan_clash_infos :=
  ⟨rfl, rfl, by decide⟩

/-- Claim C6 (amended): provided no candidate is literally named `orphan`, a
candidate whose module infos are missing from the supplied infos map is given
the synthetic external loader `'orphan'` and is dropped from the uninstall
result — it is not removed from the system. -/
theorem claim_C6_missing_infos_not_uninstalled (candidates : List String)
    (infos : List (String × ModuleInfos)) (cand : String)
    (_h1 : cand ∈ candidates) (h2 : lookupE infos cand = none)
    (h3 : ¬ "orphan" ∈ candidates) :
    ¬ cand ∈ get_modules_to_uninstall candidates infos := by
  intro hmem
  have hle := count_foldl_erase infos candidates cand h2 h3 candidates candidates
  have hres : get_modules_to_uninstall candidates infos =
      candidates.foldl
        (fun out module_to_uninstall =>
          if (match lookupE infos module_to_uninstall with
              | none => ["orphan"]
              | some inf => inf.loadedby).any (fun lb => decide (¬ lb ∈ candidates)) then
            out.erase module_to_uninstall
          else out) candidates := rfl
  rw [← hres, Nat.sub_self, Nat.le_zero] at hle
  exact absurd hmem (by simpa using List.count_eq_zero.1 hle)

/-- Witness for amended claim C6: candidate `a` has no infos, `orphan` is not
a candidate, and `a` is dropped from the uninstall result. -/
theorem claim_C6_missing_infos_not_uninstalled_witness :
    ¬ "a" ∈ get_modules_to_uninstall ["a", "b"] [("b", ⟨[1], [], ["a"]⟩)] :=
  claim_C6_missing_infos_not_uninstalled ["a", "b"] [("b", ⟨[1], [], ["a"]⟩)] "a"
    (by decide) rfl (by decide)

/-- A modules.json source with no entries. -/
def no_json : Lookup := fun _ => none

/-- A queue whose head (last) entry is an install of module `a`, marked
processing. -/
def c4_actions : List MainAction :=
  [{ action := .install, module := "a", extra := none, processing := true }]

/-- A `_modules_updates` map holding a fresh entry for module `a`. -/
def c4_updates : List (String × ModuleUpdate) :=
  [("a", get_module_update_data "a" none none)]

/-- Counterexample to claim C4 as stated: `_set_module_process` only clamps
progress from above, so calling it with `progress = -5` while module `a` is
processing stores the value `-5`, outside `[0, 100]`. -/
theorem claim_C4_counterexample :
    (lookupE (set_module_process no_json c4_actions c4_updates (some (-5)) none none) "a").map
        (fun mu => mu.update.progress) = some (-5) ∧
    ¬ (0 : Int) ≤ -5 :=
  ⟨rfl, by decide⟩

/-- Claim C4 (amended): after any `_set_module_process` call while a module is
processing, the stored progress is at most 100 (upper clamp); it is also at
least 0 provided the supplied absolute progress, the supplied increment and
the previously stored progress are all nonnegative (there is no lower clamp);
and passing `failed = true` forces progress to exactly 100 and sets the
failed flag. -/
theorem claim_C4_progress_clamp (jsonL : Lookup) (actions : List MainAction)
    (updates : List (String × ModuleUpdate)) (progress incProgress : Option Int)
    (failed : Option Bool) (name : String) (mu : ModuleUpdate)
    (hname : get_processing_module_name actions = some name)
    (hmu : lookupE (set_module_process jsonL actions updates progress incProgress failed) name
      = some mu) :
    mu.update.progress ≤ 100 ∧
    ((0 ≤ progress.getD 0 ∧ 0 ≤ incProgress.getD 0 ∧
      0 ≤ ((lookupE updates name).map (fun m0 => m0.update.progress)).getD 0) →
      0 ≤ mu.update.progress) ∧
    (failed = some true → mu.update.progress = 100 ∧ mu.update.failed = true) := by
  simp only [set_module_process, hname] at hmu
  rw [lookupE_setEntry_self] at hmu
  injection hmu with hmu
  subst hmu
  cases failed with
  | some f =>
    refine ⟨le_refl _, fun _ => by norm_num, ?_⟩
    intro hf
    injection hf with hf
    subst hf
    exact ⟨rfl, rfl⟩
  | none =>
    refine ⟨?_, ?_, by intro h; cases h⟩
    · simp only []
      split
      · exact le_refl _
      · rename_i hlt
        omega
    · intro ⟨hp, hi, hcur⟩
      simp only []
      split
      · norm_num
      · rename_i hlt
        cases progress with
        | some p => simpa using hp
        | none =>
          cases hl : lookupE updates name with
          | some m0 =>
            rw [hl] at hcur
            simp at hcur
            cases incProgress with
            | some i =>
              simp only [Option.getD_some] at hi
              exact add_nonneg hcur hi
            | none => exact hcur
          | none =>
            cases incProgress with
            | some i =>
              simp only [Option.getD_some] at hi
              simp only [get_module_update_data]
              omega
            | none => simp [get_module_update_data]

/-- Witness for amended claim C4: incrementing by 150 from progress 0 stores
the clamped value 100. -/
theorem claim_C4_progress_clamp_witness :
    (100 : Int) ≤ 100 ∧
    ((0 ≤ (0 : Int) ∧ 0 ≤ (150 : Int) ∧ 0 ≤ (0 : Int)) → (0 : Int) ≤ 100) ∧
    ((none : Option Bool) = some true → (100 : Int) = 100 ∧ false = true) :=
  claim_C4_progress_clamp no_json c4_actions c4_updates none (some 150) none "a"
    { updatable := false, processing := true, name := "a", version := none,
      update := { progress := 100, failed := false, version := none, changelog := none } }
    rfl rfl

/-- Sum of the progress steps carried by a sub-action batch (an unset step
counts as 0). -/
def sub_steps_sum (subs : List SubAction) : Nat :=
  (subs.map (fun s => s.progressstep.getD 0)).sum

/-- Every sub-action of an assigned batch carries the step `100 / N`. -/
theorem assign_progress_steps_mem (subs : List SubAction) :
    ∀ s ∈ assign_progress_steps subs, s.progressstep = some (100 / subs.length) := by
  intro s hs
  simp only [assign_progress_steps, List.mem_map] at hs
  obtain ⟨t, ht, rfl⟩ := hs
  rfl

/-- Assignment does not change the batch size. -/
theorem assign_progress_steps_length (subs : List SubAction) :
    (assign_progress_steps subs).length = subs.length := by
  simp [assign_progress_steps]

/-- Summing the extracted steps of a batch whose every entry was set to the
same step `c` gives `N * c`. -/
theorem sum_map_set_const (c : Nat) (subs : List SubAction) :
    ((subs.map (fun s => { s with progressstep := some c })).map
      (fun s => s.progressstep.getD 0)).sum = subs.length * c := by
  induction subs with
  | nil => simp
  | cons x rest ih =>
    simp only [List.map_cons, List.sum_cons, List.length_cons, ih, Nat.succ_mul]
    have hx : ({ x with progressstep := some c } : SubAction).progressstep.getD 0 = c := rfl
    rw [hx]
    omega

/-- The steps of an assigned batch sum to `N * (100 / N)`. -/
theorem assign_progress_steps_sum (subs : List SubAction) :
    sub_steps_sum (assign_progress_steps subs) = subs.length * (100 / subs.length) := by
  have h := sum_map_set_const (100 / subs.length) subs
  simpa [sub_steps_sum, assign_progress_steps] using h

/-- After a main-action tick starting with an empty sub-action queue, the
sub-action queue is either still empty or a fully assigned batch (planning
succeeded for every queued action by hypothesis, so the exception path that
leaves unassigned steps behind is not taken). -/
theorem execute_main_subActions_shape (jsonL invL : Lookup) (fuel : Nat)
    (installed : List String) (st : SchedState) (h1 : st.subActions = [])
    (h2 : ∀ a ∈ st.mainActions, (plan_main_action jsonL invL fuel installed a).2 = none) :
    (execute_main_action_task jsonL invL fuel installed st).subActions = [] ∨
    ∃ l, (execute_main_action_task jsonL invL fuel installed st).subActions
      = assign_progress_steps l := by
  simp only [execute_main_action_task]
  rw [if_neg (fun hc => hc (by rw [h1]; rfl))]
  cases hg1 : st.mainActions.getLast? with
  | none =>
    dsimp only
    rw [hg1]
    left
    exact h1
  | some a =>
    dsimp only
    by_cases hp : a.processing
    · rw [if_pos hp]
      cases hg2 : st.mainActions.dropLast.getLast? with
      | none => left; exact h1
      | some action =>
        have hmem : action ∈ st.mainActions :=
          List.mem_of_mem_dropLast (List.mem_of_mem_getLast? hg2)
        dsimp only
        rw [h2 action hmem]
        right
        exact ⟨_, rfl⟩
    · rw [if_neg hp]
      cases hg2 : st.mainActions.getLast? with
      | none => left; exact h1
      | some action =>
        have hmem : action ∈ st.mainActions := List.mem_of_mem_getLast? hg2
        dsimp only
        rw [h2 action hmem]
        right
        exact ⟨_, rfl⟩

/-- Claim C5: when a main-action tick plans a batch of `N` sub-actions (the
sub-action queue was empty and planning raises no exception), every queued
sub-action carries the same `progressstep = ⌊100 / N⌋` (0 for `N = 0`), so
the batch's steps sum to `N * ⌊100 / N⌋`, which is at most 100. -/
theorem claim_C5_progress_steps (jsonL invL : Lookup) (fuel : Nat) (installed : List String)
    (st st' : SchedState) (h1 : st.subActions = [])
    (h2 : ∀ a ∈ st.mainActions, (plan_main_action jsonL invL fuel installed a).2 = none)
    (hst : execute_main_action_task jsonL invL fuel installed st = st') :
    (∀ s ∈ st'.subActions, s.progressstep = some (100 / st'.subActions.length)) ∧
    sub_steps_sum st'.subActions = st'.subActions.length * (100 / st'.subActions.length) ∧
    st'.subActions.length * (100 / st'.subActions.length) ≤ 100 := by
  subst hst
  rcases execute_main_subActions_shape jsonL invL fuel installed st h1 h2 with hshape | ⟨l, hshape⟩
  · rw [hshape]
    refine ⟨fun s hs => absurd hs (List.not_mem_nil s), ?_, ?_⟩
    · simp [sub_steps_sum]
    · simp
  · rw [hshape, assign_progress_steps_length]
    refine ⟨assign_progress_steps_mem l, assign_progress_steps_sum l, ?_⟩
    calc l.length * (100 / l.length) = 100 / l.length * l.length := Nat.mul_comm _ _
    _ ≤ 100 := Nat.div_mul_le_self 100 l.length

/-- A catalog/inventory where every module exists with version `[1]` and no
dependencies. -/
def c5_lookup : Lookup := fun _ => some ⟨[1], [], []⟩

/-- Initial scheduler state for the C5 witness: one queued install of `x`. -/
def c5_state : SchedState :=
  { mainActions := [{ action := .install, module := "x", extra := none, processing := false }],
    subActions := [], updates := [], processor := none, needRestart := false }

/-- Scheduler state after the main-action tick plans the install of `x`. -/
def c5_state_after : SchedState :=
  { mainActions := [{ action := .install, module := "x", extra := none, processing := true }],
    subActions := [{ action := .install, module := "x", main := "x", infos := ⟨[1], [], []⟩,
                     extra := none, progressstep := some 100 }],
    updates := [("x", { updatable := false, processing := true, name := "x", version := none,
                        update := { progress := 0, failed := false, version := some [1],
                                    changelog := none } })],
    processor := none, needRestart := false }

/-- Witness for claim C5: the planned one-element batch carries
`progressstep = 100` and its steps sum to `1 * 100 ≤ 100`. -/
theorem claim_C5_progress_steps_witness :
    (∀ s ∈ c5_state_after.subActions,
        s.progressstep = some (100 / c5_state_after.subActions.length)) ∧
    sub_steps_sum c5_state_after.subActions
      = c5_state_after.subActions.length * (100 / c5_state_after.subActions.length) ∧
    c5_state_after.subActions.length * (100 / c5_state_after.subActions.length) ≤ 100 :=
  claim_C5_progress_steps c5_lookup c5_lookup 5 [] c5_state c5_state_after rfl
    (by intro a ha; simp only [c5_state, List.mem_singleton] at ha; subst ha; rfl) rfl

/-- While the processing module is marked failed and the processor slot is
free, a sub-action tick pops the oldest sub-action but does not dispatch it
and changes nothing else. -/
theorem sub_tick_skip (jsonL : Lookup) (st : SchedState) (m : String) (mu : ModuleUpdate)
    (sub : SubAction) (hproc : st.processor = none) (hlast : st.subActions.getLast? = some sub)
    (hname : get_processing_module_name st.mainActions = some m)
    (hmu : lookupE st.updates m = some mu) (hfail : mu.update.failed = true) :
    execute_sub_actions_task jsonL st =
      .ok ({ st with subActions := st.subActions.dropLast }, none) := by
  have hf : is_module_process_failed st.mainActions st.updates = some true := by
    simp [is_module_process_failed, hname, hmu, hfail]
  simp only [execute_sub_actions_task, hproc, hlast, hf]

/-- While the processing module is marked failed, any number of sub-action
ticks up to the queue length drains the queue one sub-action per tick without
dispatching anything. -/
theorem drain_skip (jsonL : Lookup) (m : String) (mu : ModuleUpdate) :
    ∀ (k : Nat) (st : SchedState), st.processor = none →
    get_processing_module_name st.mainActions = some m →
    lookupE st.updates m = some mu → mu.update.failed = true →
    k ≤ st.subActions.length →
    drain_sub_actions jsonL k st =
      .ok ({ st with subActions := st.subActions.take (st.subActions.length - k) }, []) := by
  intro k
  induction k with
  | zero =>
    intro st _ _ _ _ _
    simp only [drain_sub_actions, Nat.sub_zero, List.take_length]
  | succ k ih =>
    intro st hproc hname hmu hfail hk
    have hne : st.subActions ≠ [] := by
      intro h0
      rw [h0] at hk
      simp at hk
    obtain ⟨sub, hlast⟩ : ∃ sub, st.subActions.getLast? = some sub := by
      cases hl : st.subActions.getLast? with
      | none => exact absurd (List.getLast?_eq_none_iff.mp hl) hne
      | some s => exact ⟨s, rfl⟩
    have htick := sub_tick_skip jsonL st m mu sub hproc hlast hname hmu hfail
    have hdrop := ih { st with subActions := st.subActions.dropLast } hproc hname hmu hfail
      (by simp only [List.length_dropLast]; omega)
    simp only [drain_sub_actions, htick, hdrop]
    have harr : (st.subActions.dropLast.take (st.subActions.dropLast.length - k))
        = st.subActions.take (st.subActions.length - (k + 1)) := by
      rw [List.dropLast_eq_take, List.take_take, List.length_take]
      congr 1
      omega
    rw [harr]
    rfl

/-- Claim C3: when a processor callback reports an error status while module
`m` is processing, the updates map records `failed = true` with
`progress = 100` for `m` and the single-flight slot is released (all three
callbacks behave identically); afterwards, as long as the failed flag stands,
every sub-action tick pops one sub-action of the batch without dispatching
it, and any number of ticks up to the batch size drains the queue dispatching
nothing. -/
theorem claim_C3_fail_fast :
    (∀ (jsonL : Lookup) (st : SchedState) (status : ProcessStatus) (m : String),
        get_processing_module_name st.mainActions = some m →
        status.status = STATUS_ERROR →
        (install_module_callback jsonL st status).processor = none ∧
        (lookupE (install_module_callback jsonL st status).updates m).map
          (fun mu => (mu.update.failed, mu.update.progress)) = some (true, (100 : Int)) ∧
        uninstall_module_callback jsonL st status = install_module_callback jsonL st status ∧
        update_module_callback jsonL st status = install_module_callback jsonL st status) ∧
    (∀ (jsonL : Lookup) (st : SchedState) (m : String) (mu : ModuleUpdate) (sub : SubAction),
        st.processor = none → st.subActions.getLast? = some sub →
        get_processing_module_name st.mainActions = some m →
        lookupE st.updates m = some mu → mu.update.failed = true →
        execute_sub_actions_task jsonL st =
          .ok ({ st with subActions := st.subActions.dropLast }, none)) ∧
    (∀ (jsonL : Lookup) (st : SchedState) (m : String) (mu : ModuleUpdate) (k : Nat),
        st.processor = none → get_processing_module_name st.mainActions = some m →
        lookupE st.updates m = some mu → mu.update.failed = true →
        k ≤ st.subActions.length →
        drain_sub_actions jsonL k st =
          .ok ({ st with subActions := st.subActions.take (st.subActions.length - k) }, [])) := by
  refine ⟨?_, fun jsonL st m mu sub => sub_tick_skip jsonL st m mu sub,
    fun jsonL st m mu k hproc hname hmu hfail hk =>
      drain_skip jsonL m mu k st hproc hname hmu hfail hk⟩
  intro jsonL st status m hname hstat
  have h2 : ¬ status.status = STATUS_DONE := by rw [hstat]; decide
  have h3 : STATUS_DONE ≤ status.status := by rw [hstat]; decide
  refine ⟨?_, ?_, rfl, rfl⟩
  · simp only [install_module_callback, if_neg h2, if_pos hstat, if_pos h3]
  · simp only [install_module_callback, if_neg h2, if_pos hstat, if_pos h3]
    simp only [set_module_process, hname]
    rw [lookupE_setEntry_self]
    rfl

/-- A metadata source with no entries, for the C3 witness. -/
def c3_lookup : Lookup := fun _ => none

/-- A sub-action of the C3 witness batch. -/
def c3_sub : SubAction :=
  { action := .install, module := "b", main := "a", infos := ⟨[1], [], []⟩,
    extra := none, progressstep := some 50 }

/-- The failed update record of module `a` for the C3 witness. -/
def c3_mu : ModuleUpdate :=
  { updatable := false, processing := true, name := "a", version := none,
    update := { progress := 100, failed := true, version := none, changelog := none } }

/-- C3 witness state: module `a` processing and failed, two sub-actions
still queued, processor slot free. -/
def c3_state : SchedState :=
  { mainActions := [{ action := .install, module := "a", extra := none, processing := true }],
    subActions := [c3_sub, c3_sub], updates := [("a", c3_mu)],
    processor := none, needRestart := false }

/-- Witness for claim C3 at the concrete failed state: the error callback
marks `a` failed at progress 100 and frees the slot; one tick pops without
dispatch; two ticks drain the whole batch dispatching nothing. -/
theorem claim_C3_fail_fast_witness :
    ((install_module_callback c3_lookup c3_state { status := STATUS_ERROR, module := "b" }).processor
        = none ∧
      (lookupE (install_module_callback c3_lookup c3_state
          { status := STATUS_ERROR, module := "b" }).updates "a").map
        (fun mu => (mu.update.failed, mu.update.progress)) = some (true, (100 : Int)) ∧
      uninstall_module_callback c3_lookup c3_state { status := STATUS_ERROR, module := "b" } =
        install_module_callback c3_lookup c3_state { status := STATUS_ERROR, module := "b" } ∧
      update_module_callback c3_lookup c3_state { status := STATUS_ERROR, module := "b" } =
        install_module_callback c3_lookup c3_state { status := STATUS_ERROR, module := "b" }) ∧
    execute_sub_actions_task c3_lookup c3_state =
      .ok ({ c3_state with subActions := [c3_sub] }, none) ∧
    drain_sub_actions c3_lookup 2 c3_state =
      .ok ({ c3_state with subActions := [] }, []) :=
  ⟨claim_C3_fail_fast.1 c3_lookup c3_state { status := STATUS_ERROR, module := "b" } "a" rfl rfl,
   claim_C3_fail_fast.2.1 c3_lookup c3_state "a" c3_mu c3_sub rfl rfl rfl rfl rfl,
   claim_C3_fail_fast.2.2 c3_lookup c3_state "a" c3_mu 2 rfl rfl rfl rfl (by decide)⟩

/-- Relation stating `d` occurs before (the first occurrence of) `m` in `l`: some prefix of
`l` contains `d` but not `m`. -/
def before (l : List String) (d m : String) : Prop :=
  ∃ l1 l2, l = l1 ++ l2 ∧ d ∈ l1 ∧ ¬ m ∈ l1

/-- Appending on the right preserves the before-relation. -/
theorem before_append {l r : List String} {d m : String} (h : before l d m) :
    before (l ++ r) d m := by
  obtain ⟨l1, l2, hl, hd, hm⟩ := h
  exact ⟨l1, l2 ++ r, by rw [hl, List.append_assoc], hd, hm⟩

/-- Every member of an `m`-free list comes before the `m` appended behind
it. -/
theorem before_append_singleton {l : List String} {d m : String} (hnl : ¬ m ∈ l)
    (hd : d ∈ l) : before (l ++ [m]) d m :=
  ⟨l, [m], rfl, hd, hnl⟩

/-- Key presence in an appended association list. -/
theorem lookupE_append_isSome {α : Type} (l1 l2 : List (String × α)) (k : String) :
    (lookupE (l1 ++ l2) k).isSome ↔ (lookupE l1 k).isSome ∨ (lookupE l2 k).isSome := by
  induction l1 with
  | nil => simp [lookupE]
  | cons kv rest ih =>
    obtain ⟨k', v⟩ := kv
    by_cases hk : k' = k
    · simp [lookupE, hk]
    · simpa [lookupE, hk] using ih

/-- A key absent from an appended association list is absent from its left
part. -/
theorem lookupE_none_of_append {α : Type} {l1 l2 : List (String × α)} {k : String}
    (h : lookupE (l1 ++ l2) k = none) : lookupE l1 k = none := by
  cases hl : lookupE l1 k with
  | none => rfl
  | some v => rw [lookupE_append_of_some hl l2] at h; cases h

/-- Key presence in a one-binding association list. -/
theorem lookupE_single_isSome {α : Type} (k x : String) (v : α) :
    (lookupE [(k, v)] x).isSome ↔ x = k := by
  by_cases h : k = x
  · simp [lookupE, h]
  · simp only [lookupE, if_neg h, Option.isSome_none, Bool.false_eq_true, false_iff]
    exact fun hh => h hh.symm

/-- What one successful `_get_module_dependencies` run adds to the state:
`visited` never changes, `modules_infos` and `dependencies` only grow by
appending, every appended dependency was previously unknown, and the new
known keys are exactly the appended dependencies. -/
def Post (st st' : RState) : Prop :=
  st'.visited = st.visited ∧
  (∃ di, st'.infos = st.infos ++ di) ∧
  (∃ dd, st'.deps = st.deps ++ dd ∧
    (∀ x ∈ dd, lookupE st.infos x = none) ∧
    (∀ x, (lookupE st'.infos x).isSome ↔ ((lookupE st.infos x).isSome ∨ x ∈ dd)))

/-- Invariant of the resolution state: the accumulated dependency list is
duplicate-free, every accumulated dependency has cached infos, and every
accumulated module comes after its own (non-self, non-visited)
dependencies. -/
def GoodS (s : RState) : Prop :=
  s.deps.Nodup ∧
  (∀ x ∈ s.deps, (lookupE s.infos x).isSome) ∧
  (∀ m inf, lookupE s.infos m = some inf → m ∈ s.deps →
    ∀ d ∈ inf.deps, d ≠ m → ¬ d ∈ s.visited → before s.deps d m)

/-- Reflexivity of `Post`. -/
theorem Post_refl (st : RState) : Post st st :=
  ⟨rfl, ⟨[], (List.append_nil _).symm⟩,
   ⟨[], (List.append_nil _).symm, by simp, by simp⟩⟩

/-- Transitivity of `Post`. -/
theorem Post_trans {a b c : RState} (h1 : Post a b) (h2 : Post b c) : Post a c := by
  obtain ⟨hv1, ⟨di1, hi1⟩, ⟨dd1, hd1, hnew1, hiff1⟩⟩ := h1
  obtain ⟨hv2, ⟨di2, hi2⟩, ⟨dd2, hd2, hnew2, hiff2⟩⟩ := h2
  refine ⟨hv2.trans hv1, ⟨di1 ++ di2, by rw [hi2, hi1, List.append_assoc]⟩,
    ⟨dd1 ++ dd2, by rw [hd2, hd1, List.append_assoc], ?_, ?_⟩⟩
  · intro x hx
    rcases List.mem_append.mp hx with hx1 | hx2
    · exact hnew1 x hx1
    · have := hnew2 x hx2
      rw [hi1] at this
      exact lookupE_none_of_append this
  · intro x
    rw [hiff2 x, hiff1 x, List.mem_append]
    tauto

/-- The global invariant of `_get_module_dependencies`: every successful run
from a good state ends in a good state, only extends the state as `Post`
describes, and (for the body) appends the resolved module itself after all of
its processed dependencies. -/
theorem resolve_invariant (lookup : Lookup) : ∀ fuel : Nat,
    (∀ (name : String) (st st' : RState), GoodS st →
      resolveOne lookup fuel name st = .ok st' →
      GoodS st' ∧ Post st st' ∧ (¬ name ∈ st.visited → name ∈ st'.deps)) ∧
    (∀ (name : String) (st st' : RState), GoodS st →
      resolveCore lookup fuel name st = .ok st' →
      GoodS st' ∧ Post st st' ∧ name ∈ st'.deps ∧ lookupE st.infos name = none) ∧
    (∀ (parent : String) (ds : List String) (st st' : RState), GoodS st →
      resolveDeps lookup fuel parent ds st = .ok st' →
      GoodS st' ∧ Post st st' ∧
      (∀ d ∈ ds, d ≠ parent → ¬ d ∈ st.visited → d ∈ st'.deps)) := by
  intro fuel
  induction fuel with
  | zero =>
    refine ⟨?_, ?_, ?_⟩
    · intro name st st' _ h
      simp [resolveOne] at h
    · intro name st st' _ h
      simp [resolveCore] at h
    · intro parent ds st st' _ h
      simp [resolveDeps] at h
  | succ fuel ih =>
    obtain ⟨IH1, IH2, IH3⟩ := ih
    refine ⟨?_, ?_, ?_⟩
    · -- resolveOne
      intro name st st' hG h
      simp only [resolveOne] at h
      by_cases hv : name ∈ st.visited
      · rw [if_pos hv] at h
        injection h with h
        subst h
        exact ⟨hG, Post_refl st, fun hn => absurd hv hn⟩
      · rw [if_neg hv] at h
        obtain ⟨hG', hPost, hmem, _⟩ := IH2 name st st' hG h
        exact ⟨hG', hPost, fun _ => hmem⟩
    · -- resolveCore
      intro name st st' hG h
      simp only [resolveCore] at h
      cases hni : lookupE st.infos name with
      | some v => rw [hni] at h; simp at h
      | none =>
        rw [hni] at h
        dsimp only at h
        cases hlk : lookup name with
        | none => rw [hlk] at h; simp at h
        | some inf =>
          rw [hlk] at h
          dsimp only at h
          cases hds : resolveDeps lookup fuel name inf.deps
              { st with infos := st.infos ++ [(name, inf)] } with
          | error e => rw [hds] at h; simp at h
          | ok st2 =>
            rw [hds] at h
            dsimp only at h
            injection h with h
            subst h
            have hG1 : GoodS { st with infos := st.infos ++ [(name, inf)] } := by
              refine ⟨hG.1, ?_, ?_⟩
              · intro x hx
                obtain ⟨w, hw⟩ := Option.isSome_iff_exists.mp (hG.2.1 x hx)
                show (lookupE (st.infos ++ [(name, inf)]) x).isSome
                rw [lookupE_append_of_some hw]
                rfl
              · intro m minf hminf hmdeps d hd hdm hdv
                cases hsome : lookupE st.infos m with
                | some w =>
                  have hw : lookupE (st.infos ++ [(name, inf)]) m = some w :=
                    lookupE_append_of_some hsome _
                  rw [hw] at hminf
                  injection hminf with hminf
                  subst hminf
                  exact hG.2.2 m w hsome hmdeps d hd hdm hdv
                | none =>
                  exact absurd (hG.2.1 m hmdeps) (by rw [hsome]; simp)
            obtain ⟨hG2, hPost12, hAll⟩ := IH3 name inf.deps _ st2 hG1 hds
            obtain ⟨hv12, ⟨di2, hi2⟩, ⟨dd2, hd2, hnew2, hiff2⟩⟩ := hPost12
            have hnameKey1 : lookupE (st.infos ++ [(name, inf)]) name = some inf := by
              rw [lookupE_append_of_none hni]
              simp [lookupE]
            have hnameKey2 : lookupE st2.infos name = some inf := by
              rw [hi2]
              exact lookupE_append_of_some hnameKey1 _
            have hnameNotInStDeps : ¬ name ∈ st.deps := fun hmem =>
              absurd (hG.2.1 name hmem) (by rw [hni]; simp)
            have hnameNotInDd2 : ¬ name ∈ dd2 := fun hmem => by
              rw [hnew2 name hmem] at hnameKey1
              cases hnameKey1
            have hnameNotInSt2 : ¬ name ∈ st2.deps := by
              rw [hd2]
              intro hmem
              rcases List.mem_append.mp hmem with hmem | hmem
              · exact hnameNotInStDeps hmem
              · exact hnameNotInDd2 hmem
            refine ⟨⟨?_, ?_, ?_⟩, ⟨?_, ⟨[(name, inf)] ++ di2, ?_⟩,
              ⟨dd2 ++ [name], ?_, ?_, ?_⟩⟩, ?_, rfl⟩
            · show (st2.deps ++ [name]).Nodup
              exact List.nodup_append.mpr ⟨hG2.1, List.nodup_singleton _,
                fun a ha hb => by
                  rw [List.mem_singleton] at hb
                  subst hb
                  exact hnameNotInSt2 ha⟩
            · intro x hx
              rcases List.mem_append.mp hx with hx | hx
              · exact hG2.2.1 x hx
              · rw [List.mem_singleton] at hx
                subst hx
                show (lookupE st2.infos x).isSome
                rw [hnameKey2]
                rfl
            · intro m minf hminf hmem d hd hdm hdv
              rcases List.mem_append.mp hmem with hm2 | hm1
              · exact before_append (hG2.2.2 m minf hminf hm2 d hd hdm hdv)
              · rw [List.mem_singleton] at hm1
                replace hm1 := hm1.symm
                subst hm1
                rw [hnameKey2] at hminf
                injection hminf with hminf
                subst hminf
                have hdv1 : ¬ d ∈ ({ st with infos := st.infos ++ [(name, inf)] } : RState).visited := by
                  rw [← hv12]
                  exact hdv
                have hd2mem : d ∈ st2.deps := hAll d hd hdm hdv1
                exact before_append_singleton hnameNotInSt2 hd2mem
            · show st2.visited = st.visited
              exact hv12
            · show st2.infos = st.infos ++ ([(name, inf)] ++ di2)
              rw [hi2, ← List.append_assoc]
            · show st2.deps ++ [name] = st.deps ++ (dd2 ++ [name])
              rw [hd2, ← List.append_assoc]
            · intro x hx
              rcases List.mem_append.mp hx with hx | hx
              · have := hnew2 x hx
                exact lookupE_none_of_append this
              · rw [List.mem_singleton] at hx
                subst hx
                exact hni
            · intro x
              show (lookupE st2.infos x).isSome ↔ _
              rw [hiff2 x]
              have h1 : (lookupE (st.infos ++ [(name, inf)]) x).isSome ↔
                  ((lookupE st.infos x).isSome ∨ x = name) := by
                rw [lookupE_append_isSome, lookupE_single_isSome]
              rw [h1, List.mem_append, List.mem_singleton]
              tauto
            · show name ∈ st2.deps ++ [name]
              exact List.mem_append_right _ (List.mem_singleton_self name)
    · -- resolveDeps
      intro parent ds st st' hG h
      cases ds with
      | nil =>
        simp only [resolveDeps] at h
        injection h with h
        subst h
        exact ⟨hG, Post_refl st, fun d hd => absurd hd (List.not_mem_nil d)⟩
      | cons d rest =>
        simp only [resolveDeps] at h
        by_cases hdp : d = parent
        · rw [if_pos hdp] at h
          obtain ⟨hG', hPost, hrest⟩ := IH3 parent rest st st' hG h
          refine ⟨hG', hPost, ?_⟩
          intro d' hd' hne hnv
          rcases List.mem_cons.mp hd' with rfl | hmem
          · exact absurd hdp hne
          · exact hrest d' hmem hne hnv
        · rw [if_neg hdp] at h
          cases hone : resolveOne lookup fuel d st with
          | error e => rw [hone] at h; simp at h
          | ok st1 =>
            rw [hone] at h
            dsimp only at h
            obtain ⟨hG1, hPost1, hd1⟩ := IH1 d st st1 hG hone
            obtain ⟨hG', hPost2, hrest⟩ := IH3 parent rest st1 st' hG1 h
            refine ⟨hG', Post_trans hPost1 hPost2, ?_⟩
            intro d' hd' hne hnv
            rcases List.mem_cons.mp hd' with rfl | hmem
            · have hin1 : d' ∈ st1.deps := hd1 hnv
              obtain ⟨_, _, ⟨dd, hdd, _, _⟩⟩ := hPost2
              rw [hdd]
              exact List.mem_append_left _ hin1
            · refine hrest d' hmem hne ?_
              obtain ⟨hveq, _, _⟩ := hPost1
              rw [hveq]
              exact hnv

/-- The diamond dependency graph `a → {b, c}`, `b → d`, `c → d`: acyclic, but
module `d` is reachable along two paths. -/
def diamond_lookup : Lookup := fun n =>
  if n = "a" then some ⟨[1], ["b", "c"], []⟩
  else if n = "b" then some ⟨[1], ["d"], []⟩
  else if n = "c" then some ⟨[1], ["d"], []⟩
  else if n = "d" then some ⟨[1], [], []⟩
  else none

/-- A topological rank witnessing that the diamond graph is acyclic. -/
def diamond_rank : String → Nat := fun n =>
  if n = "a" then 2 else if n = "b" then 1 else if n = "c" then 1 else 0

/-- Counterexample to claim C1 as stated: the diamond graph is acyclic (every
dependency strictly decreases `diamond_rank`), yet `_get_module_dependencies`
does not return a sequence at all — reaching `d` a second time finds it
already cached in `modules_infos`, the local `infos` is then unbound, and the
resolution aborts (`UnboundLocalError`), so it does not return every
reachable module exactly once. -/
theorem claim_C1_counterexample :
    (∀ m ∈ ["a", "b", "c", "d"],
      ∀ d ∈ ((diamond_lookup m).map (fun inf => inf.deps)).getD [],
        diamond_rank d < diamond_rank m) ∧
    get_module_dependencies diamond_lookup 10 "a" [] = .error .unboundInfos :=
  ⟨by decide, rfl⟩

/-- Claim C1 (amended): whenever `_get_module_dependencies` returns normally
(it aborts with an error when any module other than the start is reached a
second time, e.g. a shared dependency in a DAG), the returned list contains
each looked-up module exactly once — it is duplicate-free and its members are
exactly the modules cached in the infos map — in leaf-first order: every
dependency of a listed module other than itself and the start module occurs
before it; and re-running the resolution with the same inputs returns the
identical result. -/
theorem claim_C1_resolution_on_success (lookup : Lookup) (fuel : Nat) (name : String)
    (deps : List String) (infos : List (String × ModuleInfos))
    (h : get_module_dependencies lookup fuel name [] = .ok (deps, infos)) :
    deps.Nodup ∧
    (∀ m, m ∈ deps ↔ (lookupE infos m).isSome) ∧
    (∀ m inf, lookupE infos m = some inf →
      ∀ d ∈ inf.deps, d ≠ m → d ≠ name → before deps d m) ∧
    get_module_dependencies lookup fuel name [] = .ok (deps, infos) := by
  have horig := h
  have hG0 : GoodS { infos := [], visited := [name], deps := [] } :=
    ⟨List.nodup_nil, fun x hx => absurd hx (List.not_mem_nil x),
     fun m inf hminf => by simp [lookupE] at hminf⟩
  unfold get_module_dependencies at h
  cases hc : resolveCore lookup fuel name { infos := [], visited := [name], deps := [] } with
  | error e => rw [hc] at h; simp at h
  | ok stf =>
    rw [hc] at h
    dsimp only at h
    simp only [Except.ok.injEq, Prod.mk.injEq] at h
    obtain ⟨h1, h2⟩ := h
    subst h1
    subst h2
    obtain ⟨hGf, hPost, hmemf, _⟩ := (resolve_invariant lookup fuel).2.1 name _ stf hG0 hc
    obtain ⟨hv, ⟨di, hi⟩, ⟨dd, hd, hnew, hiff⟩⟩ := hPost
    have hkey : ∀ m, m ∈ stf.deps ↔ (lookupE stf.infos m).isSome := by
      intro m
      constructor
      · exact hGf.2.1 m
      · intro hk
        have := (hiff m).mp hk
        rcases this with hfalse | hmemdd
        · simp [lookupE] at hfalse
        · have : stf.deps = dd := hd
          rw [this]
          exact hmemdd
    refine ⟨hGf.1, hkey, ?_, horig⟩
    intro m inf hminf d hd' hdm hdname
    have hmemdeps : m ∈ stf.deps := (hkey m).mpr (by rw [hminf]; rfl)
    refine hGf.2.2 m inf hminf hmemdeps d hd' hdm ?_
    have : stf.visited = [name] := hv
    rw [this]
    intro hdv
    rw [List.mem_singleton] at hdv
    exact hdname hdv

/-- The tree-shaped chain `a → b` with its resolved infos map. -/
def chain_lookup_ab : Lookup := fun n =>
  if n = "a" then some ⟨[1], ["b"], []⟩
  else if n = "b" then some ⟨[2], [], []⟩
  else none

/-- The infos cache filled by resolving `a` over `chain_lookup_ab`. -/
def chain_infos_ab : List (String × ModuleInfos) :=
  [("a", ⟨[1], ["b"], []⟩), ("b", ⟨[2], [], []⟩)]

/-- Witness for amended claim C1: resolving `a` over the chain `a → b`
returns `["b", "a"]`, duplicate-free, keyed exactly by the cached infos, with
the dependency `b` before `a`. -/
theorem claim_C1_resolution_on_success_witness :
    ["b", "a"].Nodup ∧
    (∀ m, m ∈ ["b", "a"] ↔ (lookupE chain_infos_ab m).isSome) ∧
    (∀ m inf, lookupE chain_infos_ab m = some inf →
      ∀ d ∈ inf.deps, d ≠ m → d ≠ "a" → before ["b", "a"] d m) ∧
    get_module_dependencies chain_lookup_ab 10 "a" [] = .ok (["b", "a"], chain_infos_ab) :=
  claim_C1_resolution_on_success chain_lookup_ab 10 "a" ["b", "a"] chain_infos_ab rfl

/-- Strict version comparison is irreflexive: equal versions are never
"newer". -/
theorem versionLt_irrefl : ∀ v : List Nat, versionLt v v = false := by
  intro v
  induction v with
  | nil => rfl
  | cons a as ih => simp [versionLt, ih]

/-- On success, the dependency list returned by `_get_module_dependencies`
is covered by the filled infos map. -/
theorem get_module_dependencies_keys (lookup : Lookup) (fuel : Nat) (name : String)
    (deps : List String) (infos : List (String × ModuleInfos))
    (h : get_module_dependencies lookup fuel name [] = .ok (deps, infos)) :
    ∀ m ∈ deps, (lookupE infos m).isSome := by
  have hG0 : GoodS { infos := [], visited := [name], deps := [] } :=
    ⟨List.nodup_nil, fun x hx => absurd hx (List.not_mem_nil x),
     fun m inf hminf => by simp [lookupE] at hminf⟩
  unfold get_module_dependencies at h
  cases hc : resolveCore lookup fuel name { infos := [], visited := [name], deps := [] } with
  | error e => rw [hc] at h; simp at h
  | ok stf =>
    rw [hc] at h
    dsimp only at h
    simp only [Except.ok.injEq, Prod.mk.injEq] at h
    obtain ⟨h1, h2⟩ := h
    subst h1
    subst h2
    exact ((resolve_invariant lookup fuel).2.1 name _ stf hG0 hc).1.2.1

/-- The sub-action record built by `_postpone_sub_action`. -/
def mkSub (kind : ActionKind) (module_name : String) (module_infos : ModuleInfos)
    (main_name : String) (extra : Option Bool) : SubAction :=
  { action := kind, module := module_name, main := main_name, infos := module_infos,
    extra := extra, progressstep := none }

/-- Total lookup into an infos map with a dummy default; only used in
statements where the key is proven present. -/
def infoOf (minfos : List (String × ModuleInfos)) (m : String) : ModuleInfos :=
  (lookupE minfos m).getD ⟨[], [], []⟩

/-- Whether the catalog version of `m` exceeds its installed version,
according to the two infos maps (false when either entry is missing). -/
def catalog_newer (infosInv infosJson : List (String × ModuleInfos)) (m : String) : Bool :=
  match lookupE infosInv m, lookupE infosJson m with
  | some a, some b => compare_versions a.version b.version
  | _, _ => false

/-- Spec 4.8 `toUninstall`: old-graph modules absent from the new graph. -/
def spec_to_uninstall (old new : List String) : List String :=
  old.filter (fun m => decide (¬ m ∈ new))

/-- Spec 4.8 `toInstall`: new-graph modules absent from the old graph. -/
def spec_to_install (old new : List String) : List String :=
  new.filter (fun m => decide (¬ m ∈ old))

/-- Spec 4.8 `toUpdate`: modules present in both graphs whose catalog version
exceeds the installed version. -/
def spec_to_update (old new : List String)
    (infosInv infosJson : List (String × ModuleInfos)) : List String :=
  new.filter (fun m => decide (m ∈ old) && catalog_newer infosInv infosJson m)

/-- A postponing loop whose every module has cached infos postpones exactly
one sub-action per module, in reverse (insert-at-head) order. -/
theorem postpone_for_eq (kind : ActionKind) (minfos : List (String × ModuleInfos))
    (main_name : String) (extra : Option Bool) :
    ∀ (l : List String) (acc : List SubAction),
      (∀ m ∈ l, (lookupE minfos m).isSome) →
      postpone_for kind minfos main_name extra l acc =
        ((l.map (fun m => mkSub kind m (infoOf minfos m) main_name extra)).reverse ++ acc,
          none) := by
  intro l
  induction l with
  | nil => intro acc _; simp [postpone_for]
  | cons m rest ih =>
    intro acc hall
    have hm := hall m (List.mem_cons_self m rest)
    obtain ⟨inf, hinf⟩ := Option.isSome_iff_exists.mp hm
    simp only [postpone_for, hinf]
    rw [ih _ (fun x hx => hall x (List.mem_cons_of_mem m hx))]
    simp [postpone_sub_action, mkSub, infoOf, hinf, List.append_assoc]

/-- When every common module has cached infos on both sides, the
`dependencies_to_update` comprehension succeeds and computes the spec's
`toUpdate` filter. -/
theorem compute_to_update_eq (infosInv infosJson : List (String × ModuleInfos))
    (old : List String) :
    ∀ l : List String,
      (∀ m ∈ l, m ∈ old → (lookupE infosInv m).isSome ∧ (lookupE infosJson m).isSome) →
      compute_dependencies_to_update infosInv infosJson old l =
        .ok (l.filter (fun m => decide (m ∈ old) && catalog_newer infosInv infosJson m)) := by
  intro l
  induction l with
  | nil => intro _; simp [compute_dependencies_to_update]
  | cons m rest ih =>
    intro hall
    have hrest := ih (fun x hx hxo => hall x (List.mem_cons_of_mem m hx) hxo)
    by_cases hmo : m ∈ old
    · obtain ⟨hI, hJ⟩ := hall m (List.mem_cons_self m rest) hmo
      obtain ⟨infI, hinfI⟩ := Option.isSome_iff_exists.mp hI
      obtain ⟨infJ, hinfJ⟩ := Option.isSome_iff_exists.mp hJ
      simp only [compute_dependencies_to_update, if_pos hmo, hinfI, hinfJ, hrest]
      rw [List.filter_cons]
      have hcond : (decide (m ∈ old) && catalog_newer infosInv infosJson m) =
          compare_versions infI.version infJ.version := by
        simp [catalog_newer, hinfI, hinfJ, hmo]
      rw [hcond]
    · simp only [compute_dependencies_to_update, if_neg hmo, hrest]
      rw [List.filter_cons]
      have hcond : (decide (m ∈ old) && catalog_newer infosInv infosJson m) = false := by
        simp [hmo]
      rw [hcond]
      simp

/-- Claim C7: for an update of module `X` whose two dependency resolutions
succeed, `_update_main_module` postpones — in this order — an uninstall (with
force set) for every old-graph module absent from the new graph, then an
install for every new-graph module absent from the old graph, then an update
for every module present in both graphs whose catalog version exceeds the
installed version (the stored queue is the reverse of that enqueue order,
since sub-actions are inserted at the head and consumed from the tail); a
module present in both graphs with unchanged version receives no
sub-action. -/
theorem claim_C7_update_plan (invL jsonL : Lookup) (fuel : Nat) (X : String)
    (old new : List String) (infosInv infosJson : List (String × ModuleInfos))
    (h1 : get_module_dependencies invL fuel X [] = .ok (old, infosInv))
    (h2 : get_module_dependencies jsonL fuel X [] = .ok (new, infosJson)) :
    update_main_module invL jsonL fuel X =
      (((spec_to_uninstall old new).map
          (fun m => mkSub .uninstall m (infoOf infosInv m) X (some true)) ++
        (spec_to_install old new).map
          (fun m => mkSub .install m (infoOf infosJson m) X none) ++
        (spec_to_update old new infosInv infosJson).map
          (fun m => mkSub .update m (infoOf infosJson m) X none)).reverse, none) ∧
    (∀ (m : String) (infI infJ : ModuleInfos), m ∈ old → m ∈ new →
      lookupE infosInv m = some infI → lookupE infosJson m = some infJ →
      infI.version = infJ.version →
      ∀ s ∈ (update_main_module invL jsonL fuel X).1, s.module ≠ m) := by
  have hkeysInv := get_module_dependencies_keys invL fuel X old infosInv h1
  have hkeysJson := get_module_dependencies_keys jsonL fuel X new infosJson h2
  have hmain : update_main_module invL jsonL fuel X =
      (((spec_to_uninstall old new).map
          (fun m => mkSub .uninstall m (infoOf infosInv m) X (some true)) ++
        (spec_to_install old new).map
          (fun m => mkSub .install m (infoOf infosJson m) X none) ++
        (spec_to_update old new infosInv infosJson).map
          (fun m => mkSub .update m (infoOf infosJson m) X none)).reverse, none) := by
    have hcomp := compute_to_update_eq infosInv infosJson old new
      (fun m hm hmo => ⟨hkeysInv m hmo, hkeysJson m hm⟩)
    have hu := fun acc => postpone_for_eq .uninstall infosInv X (some true)
      (old.filter (fun m => decide (¬ m ∈ new))) acc
      (fun m hm => hkeysInv m (List.mem_of_mem_filter hm))
    have hi := fun acc => postpone_for_eq .install infosJson X none
      (new.filter (fun m => decide (¬ m ∈ old))) acc
      (fun m hm => hkeysJson m (List.mem_of_mem_filter hm))
    have ht := fun acc => postpone_for_eq .update infosJson X none
      (new.filter (fun m => decide (m ∈ old) && catalog_newer infosInv infosJson m)) acc
      (fun m hm => hkeysJson m (List.mem_of_mem_filter hm))
    simp only [update_main_module, h1, h2, hcomp, hu, hi, ht]
    simp [spec_to_uninstall, spec_to_install, spec_to_update, List.reverse_append,
      List.append_assoc]
  refine ⟨hmain, ?_⟩
  intro m infI infJ hmo hmn hI hJ hver s hs
  rw [hmain] at hs
  dsimp only at hs
  rw [List.mem_reverse] at hs
  intro hsm
  rcases List.mem_append.mp hs with hs' | hsT
  · rcases List.mem_append.mp hs' with hsU | hsI
    · obtain ⟨m', hm', rfl⟩ := List.mem_map.mp hsU
      have : m' = m := hsm
      subst this
      have := (List.mem_filter.mp hm').2
      rw [decide_eq_true_eq] at this
      exact this hmn
    · obtain ⟨m', hm', rfl⟩ := List.mem_map.mp hsI
      have : m' = m := hsm
      subst this
      have := (List.mem_filter.mp hm').2
      rw [decide_eq_true_eq] at this
      exact this hmo
  · obtain ⟨m', hm', rfl⟩ := List.mem_map.mp hsT
    have : m' = m := hsm
    subst this
    have hcond := (List.mem_filter.mp hm').2
    rw [Bool.and_eq_true] at hcond
    have hnewer := hcond.2
    rw [show catalog_newer infosInv infosJson m' = compare_versions infI.version infJ.version
      from by simp [catalog_newer, hI, hJ]] at hnewer
    rw [hver, compare_versions, versionLt_irrefl] at hnewer
    cases hnewer

/-- Installed-inventory graph for the C7 witness: `x → {y, z}`. -/
def c7_inv_lookup : Lookup := fun n =>
  if n = "x" then some ⟨[1], ["y", "z"], []⟩
  else if n = "y" then some ⟨[1], [], []⟩
  else if n = "z" then some ⟨[1], [], []⟩
  else none

/-- Catalog graph for the C7 witness: `x → {y, q}`, `x` and `y` versions
unchanged. -/
def c7_json_lookup : Lookup := fun n =>
  if n = "x" then some ⟨[1], ["y", "q"], []⟩
  else if n = "y" then some ⟨[1], [], []⟩
  else if n = "q" then some ⟨[1], [], []⟩
  else none

/-- Old-graph infos cache of the C7 witness. -/
def c7_infos_inv : List (String × ModuleInfos) :=
  [("x", ⟨[1], ["y", "z"], []⟩), ("y", ⟨[1], [], []⟩), ("z", ⟨[1], [], []⟩)]

/-- New-graph infos cache of the C7 witness. -/
def c7_infos_json : List (String × ModuleInfos) :=
  [("x", ⟨[1], ["y", "q"], []⟩), ("y", ⟨[1], [], []⟩), ("q", ⟨[1], [], []⟩)]

/-- Witness for claim C7: updating `x` (old deps `[y, z]`, new deps `[y, q]`,
versions unchanged) plans exactly `[Uninstall z (forced), Install q]`, stored
reversed; the unchanged `y` receives no sub-action. -/
theorem claim_C7_update_plan_witness :
    update_main_module c7_inv_lookup c7_json_lookup 10 "x" =
      (((spec_to_uninstall ["y", "z", "x"] ["y", "q", "x"]).map
          (fun m => mkSub .uninstall m (infoOf c7_infos_inv m) "x" (some true)) ++
        (spec_to_install ["y", "z", "x"] ["y", "q", "x"]).map
          (fun m => mkSub .install m (infoOf c7_infos_json m) "x" none) ++
        (spec_to_update ["y", "z", "x"] ["y", "q", "x"] c7_infos_inv c7_infos_json).map
          (fun m => mkSub .update m (infoOf c7_infos_json m) "x" none)).reverse, none) ∧
    (∀ (m : String) (infI infJ : ModuleInfos), m ∈ ["y", "z", "x"] → m ∈ ["y", "q", "x"] →
      lookupE c7_infos_inv m = some infI → lookupE c7_infos_json m = some infJ →
      infI.version = infJ.version →
      ∀ s ∈ (update_main_module c7_inv_lookup c7_json_lookup 10 "x").1, s.module ≠ m) :=
  claim_C7_update_plan c7_inv_lookup c7_json_lookup 10 "x" ["y", "z", "x"] ["y", "q", "x"]
    c7_infos_inv c7_infos_json rfl rfl
